import Mathlib

/-!
# Verification of the pulumi resource-state codec and construct adapter

Shallow embedding of:
* `SerializeResource` / `SerializeProperties` / `SerializePropertyValue` and
  `DeserializeResource` / `DeserializeProperties` / `DeserializePropertyValue`
  (the snapshot codec, `pkg/resource/stack`);
* the `construct` gRPC adapter and `constructInputsSetArgs`
  (`sdk/go/pulumi/provider.go`).

Modelling conventions:
* Go `map[string]T` values are modelled as association lists; the canonical
  representation of a Go map is its entry list sorted by key (Go map iteration
  order is unobservable here: the codec only reads maps through the sorted
  `StableKeys` iteration, so on canonical lists iterating in list order is
  exactly the `StableKeys` iteration).
* A Go `nil` map is `Option.none`, distinct from a present-but-empty map
  `some []`.
* A Go `panic` (failed `contract.Assert`, out-of-range slice index) is
  modelled by `Option.none` / `Except.error` at the function's result.
* `float64` payloads are only ever passed through by this code, never
  computed with, so `Number` carries an opaque `Int` payload.
* Strings are compared with Lean's `String` order (identical to Go's
  byte-wise order on the ASCII inputs appearing in this development).
-/

namespace Pulumi

/-- The wire-neutral tree produced by serialization (Go `interface{}` after
`SerializePropertyValue`).  A Go `nil` interface value is represented by
`Option.none` at the use sites (array slots, map entries), so `WireValue`
itself covers exactly the non-nil shapes the deserializer recognizes:
`bool`, `float64`, `string`, `[]interface{}`, `map[string]interface{}`. -/
inductive WireValue where
  | bool (b : Bool)
  | number (n : Int)
  | string (s : String)
  | array (elems : List (Option WireValue))
  | object (entries : List (String × Option WireValue))


/-- A serialized property bag, i.e. a Go `map[string]interface{}`. -/
abbrev WireMap := List (String × Option WireValue)

/-- `resource.PropertyValue`, the tagged-union property model.  `computed` is
an unresolved computed value (`IsComputed`); `output` is an output that has not
materialized (`HasValue` is false for it, as for `null`).  The `asset` and
`archive` payloads are opaque texts (the concrete Asset/Archive types live
outside the embedded sources). -/
inductive PropertyValue where
  | null
  | bool (b : Bool)
  | number (n : Int)
  | string (s : String)
  | array (elems : List PropertyValue)
  | object (entries : List (String × PropertyValue))
  | asset (text : String)
  | archive (text : String)
  | computed
  | output


/-- `resource.PropertyMap` in canonical (key-sorted) association-list form. -/
abbrev PropertyMap := List (String × PropertyValue)

/-- Strict character order by code point.  UTF-8 byte order (what Go's `<`
on strings compares) coincides with code-point order. -/
def charLt (a b : Char) : Bool := a.val < b.val

/-- Lexicographic strict order on character lists: Go's `s < t` on strings. -/
def charListLt : List Char → List Char → Bool
  | [], [] => false
  | [], _ :: _ => true
  | _ :: _, [] => false
  | a :: as, b :: bs =>
      if charLt a b then true
      else if charLt b a then false
      else charListLt as bs

/-- Lexicographic `≤` on character lists: Go's `s <= t` on strings. -/
def charListLe : List Char → List Char → Bool
  | [], _ => true
  | _ :: _, [] => false
  | a :: as, b :: bs =>
      if charLt a b then true
      else if charLt b a then false
      else charListLe as bs

/-- Go's `<` on strings. -/
def strLt (a b : String) : Bool := charListLt a.toList b.toList

/-- Go's `<=` on strings. -/
def strLe (a b : String) : Bool := charListLe a.toList b.toList

/-- Insert `a` into a list keeping it ordered by `le` (helper for `sortLe`). -/
def insertLe {α : Type} (le : α → α → Bool) (a : α) : List α → List α
  | [] => [a]
  | b :: rest => if le a b then a :: b :: rest else b :: insertLe le a rest

/-- Insertion sort by `le`.  Models Go's `sort.Strings` / `sort.Slice` with a
`<` comparator: on strings any comparison sort yields the same list, since
equal keys are identical. -/
def sortLe {α : Type} (le : α → α → Bool) (l : List α) : List α :=
  l.foldr (insertLe le) []

/-- Key order used to sort association-list entries (`StableKeys`). -/
def keyLe {β : Type} (a b : String × β) : Bool := strLe a.1 b.1

/-- Sort an association list by key: the canonicalization of a Go map. -/
def sortByKey {β : Type} (m : List (String × β)) : List (String × β) :=
  sortLe keyLe m

theorem sizeOf_insertLe {α : Type} [SizeOf α] (le : α → α → Bool) (a : α) :
    ∀ l : List α, sizeOf (insertLe le a l) = 1 + sizeOf a + sizeOf l := by
  intro l
  induction l with
  | nil => simp [insertLe]
  | cons b rest ih =>
      simp only [insertLe]
      by_cases h : le a b = true
      · simp only [if_pos h, List.cons.sizeOf_spec]
      · simp only [if_neg h, List.cons.sizeOf_spec, ih]
        omega

theorem sizeOf_sortLe {α : Type} [SizeOf α] (le : α → α → Bool) :
    ∀ l : List α, sizeOf (sortLe le l) = sizeOf l := by
  intro l
  induction l with
  | nil => rfl
  | cons a rest ih =>
      show sizeOf (insertLe le a (sortLe le rest)) = sizeOf (a :: rest)
      rw [sizeOf_insertLe, ih]
      simp only [List.cons.sizeOf_spec]

theorem sizeOf_sortByKey {β : Type} [SizeOf β] (m : List (String × β)) :
    sizeOf (sortByKey m) = sizeOf m :=
  sizeOf_sortLe keyLe m

/-- Modelled from the spec: the Asset/Archive self-describing serialized form
("must embed a recoverable type marker", §4.1).  The concrete Asset/Archive
types and their `Serialize`/`DeserializeAsset`/`DeserializeArchive` functions
are outside the embedded sources; we model an asset/archive as a text payload
serialized to an object carrying a type-marker entry plus the text. -/
def sigKey : String := "sig"

/-- The asset type marker value. -/
def assetSig : String := "asset"

/-- The archive type marker value. -/
def archiveSig : String := "archive"

/-- The key under which an asset's/archive's payload is serialized. -/
def textKey : String := "text"

/-- Modelled from the spec: `Asset.Serialize` — the self-describing wire form
of an asset with payload `t`. -/
def serializeAssetWire (t : String) : WireValue :=
  .object [(sigKey, some (.string assetSig)), (textKey, some (.string t))]

/-- Modelled from the spec: `Archive.Serialize`. -/
def serializeArchiveWire (t : String) : WireValue :=
  .object [(sigKey, some (.string archiveSig)), (textKey, some (.string t))]

mutual

/-- `SerializePropertyValue`.  Outer `none` models the
`contract.Assert(!prop.IsComputed())` panic; `some none` models a Go `nil`
result (value omitted: `null` and unmaterialized outputs); `some (some w)` is
a materialized wire value. -/
def serializePropertyValue : PropertyValue → Option (Option WireValue)
  | .computed => none
  | .null => some none
  | .output => some none
  | .array es =>
      (serializeArray es).map (fun ws => some (.array ws))
  | .object m =>
      (serializePropertiesSorted (sortByKey m)).map (fun wm => some (.object wm))
  | .asset t => some (some (serializeAssetWire t))
  | .archive t => some (some (serializeArchiveWire t))
  | .bool b => some (some (.bool b))
  | .number n => some (some (.number n))
  | .string s => some (some (.string s))
termination_by v => sizeOf v
decreasing_by
  all_goals simp_wf
  all_goals try simp only [sizeOf_sortByKey]
  all_goals omega

/-- Array serialization: recurse per element in order; a `nil` element result
is kept as an explicit `none` slot. -/
def serializeArray : List PropertyValue → Option (List (Option WireValue))
  | [] => some []
  | v :: rest => do
      let w ← serializePropertyValue v
      let ws ← serializeArray rest
      some (w :: ws)
termination_by es => sizeOf es
decreasing_by
  all_goals simp_wf
  all_goals omega

/-- `SerializeProperties` on an entry list already in `StableKeys` (sorted)
order: serialize each value, dropping the key when the value serializes to
`nil`. -/
def serializePropertiesSorted : List (String × PropertyValue) → Option WireMap
  | [] => some []
  | (k, v) :: rest => do
      let w ← serializePropertyValue v
      let wm ← serializePropertiesSorted rest
      some (match w with
            | none => wm
            | some wv => (k, some wv) :: wm)
termination_by m => sizeOf m
decreasing_by
  all_goals simp_wf
  all_goals omega

end

/-- `SerializeProperties`: iterate the property map in `StableKeys` (sorted
key) order, keeping entries whose values serialize to a non-nil wire value. -/
def SerializeProperties (m : PropertyMap) : Option WireMap :=
  serializePropertiesSorted (sortByKey m)

/-- Association-list lookup (first match). -/
def lookupKey {β : Type} (k : String) : List (String × β) → Option β
  | [] => none
  | (k', v) :: rest => if k' = k then some v else lookupKey k rest

/-- Modelled from the spec: recover an asset/archive payload from its
deserialized object form (the `text` field, if present). -/
def textField (m : List (String × PropertyValue)) : String :=
  match lookupKey textKey m with
  | some (.string t) => t
  | _ => ""

mutual

/-- `DeserializePropertyValue`: `nil → Null`; scalars pass through; lists
recurse; maps recurse and are then probed for the asset/archive type marker.
(The Go `default: contract.Failf` branch is unreachable here because
`WireValue` covers exactly the recognized wire shapes.) -/
def deserializePropertyValue : Option WireValue → PropertyValue
  | none => .null
  | some (.bool b) => .bool b
  | some (.number n) => .number n
  | some (.string s) => .string s
  | some (.array ws) => .array (deserializeList ws)
  | some (.object wm) =>
      let obj := sortByKey (deserializeEntries wm)
      match lookupKey sigKey obj with
      | some (.string s) =>
          if s = assetSig then .asset (textField obj)
          else if s = archiveSig then .archive (textField obj)
          else .object obj
      | _ => .object obj

/-- Elementwise deserialization of a wire array. -/
def deserializeList : List (Option WireValue) → List PropertyValue
  | [] => []
  | w :: rest => deserializePropertyValue w :: deserializeList rest

/-- Entrywise deserialization of a wire map's entry list. -/
def deserializeEntries : WireMap → List (String × PropertyValue)
  | [] => []
  | (k, w) :: rest => (k, deserializePropertyValue w) :: deserializeEntries rest

end

/-- `DeserializeProperties`: ranging over a `nil` Go map yields nothing, and
the result map is created with `make` either way, so the result is always a
present (possibly empty) map; canonicalized by sorting. -/
def DeserializeProperties (w : Option WireMap) : PropertyMap :=
  match w with
  | none => []
  | some wm => sortByKey (deserializeEntries wm)

/-! ### Round-trip-safety predicates and ordering lemmas -/

/-- Values the object serializer drops (`HasValue` is false): `Null` and
unmaterialized outputs. -/
def isOmitted : PropertyValue → Bool
  | .null => true
  | .output => true
  | _ => false

/-- No entry of the list uses the asset/archive type-marker key (such an
entry would make a plain object be mis-recovered as an asset/archive). -/
def noMarkerKeys {β : Type} : List (String × β) → Bool
  | [] => true
  | (k, _) :: rest => !decide (k = sigKey) && noMarkerKeys rest

/-- Strictly increasing keys: the canonical-form invariant of a Go map's
entry list (implies key uniqueness). -/
def strictSortedKeys {β : Type} : List (String × β) → Bool
  | [] => true
  | [_] => true
  | a :: b :: rest => strLt a.1 b.1 && strictSortedKeys (b :: rest)

mutual

/-- Round-trip safety of a property value: no `computed`/`output` anywhere,
object entry lists canonical (strictly key-sorted), no null-valued object
entries, and no object using the type-marker key. -/
def rtValue : PropertyValue → Bool
  | .null => true
  | .bool _ => true
  | .number _ => true
  | .string _ => true
  | .asset _ => true
  | .archive _ => true
  | .computed => false
  | .output => false
  | .array es => rtList es
  | .object m => strictSortedKeys m && noMarkerKeys m && rtProps m

/-- Round-trip safety of an array's elements. -/
def rtList : List PropertyValue → Bool
  | [] => true
  | v :: rest => rtValue v && rtList rest

/-- Round-trip safety of an object's entries: no entry may be dropped by
serialization. -/
def rtProps : List (String × PropertyValue) → Bool
  | [] => true
  | (_, v) :: rest => !isOmitted v && rtValue v && rtProps rest

end

/-- Round-trip safety of a top-level (resource-field) property map: canonical
and with round-trip-safe, non-dropped entries.  (The type-marker key is
allowed here: `DeserializeProperties` probes only nested objects.) -/
def rtTopMap : PropertyMap → Bool :=
  fun m => strictSortedKeys m && rtProps m

theorem charListLt_imp_le :
    ∀ as bs : List Char, charListLt as bs = true → charListLe as bs = true := by
  intro as
  induction as with
  | nil => intro bs _; simp [charListLe]
  | cons a as ih =>
      intro bs h
      cases bs with
      | nil => simp [charListLt] at h
      | cons b bs =>
          simp only [charListLt] at h
          simp only [charListLe]
          cases hab : charLt a b with
          | true => simp [hab]
          | false =>
              cases hba : charLt b a with
              | true => simp [hab, hba] at h
              | false =>
                  simp only [hab, hba] at h ⊢
                  simp at h ⊢
                  exact ih bs h

theorem strLt_imp_strLe (a b : String) (h : strLt a b = true) : strLe a b = true :=
  charListLt_imp_le _ _ h

theorem sortLe_eq_of_chain {α : Type} (le : α → α → Bool) :
    ∀ l : List α, List.Chain' (fun a b => le a b = true) l → sortLe le l = l := by
  intro l
  induction l with
  | nil => intro _; rfl
  | cons a rest ih =>
      intro h
      show insertLe le a (sortLe le rest) = a :: rest
      cases rest with
      | nil => rfl
      | cons b rest' =>
          rw [List.chain'_cons] at h
          rw [ih h.2]
          simp [insertLe, h.1]

theorem strictSortedKeys_chain {β : Type} :
    ∀ m : List (String × β), strictSortedKeys m = true →
      List.Chain' (fun a b => keyLe a b = true) m := by
  intro m
  induction m with
  | nil => intro _; simp
  | cons a rest ih =>
      cases rest with
      | nil => intro _; simp
      | cons b rest' =>
          intro h
          simp only [strictSortedKeys, Bool.and_eq_true] at h
          rw [List.chain'_cons]
          exact ⟨strLt_imp_strLe _ _ h.1, ih h.2⟩

theorem sortByKey_eq_of_strictSorted {β : Type} (m : List (String × β))
    (h : strictSortedKeys m = true) : sortByKey m = m :=
  sortLe_eq_of_chain keyLe m (strictSortedKeys_chain m h)

theorem lookupKey_none_of_noMarker {β : Type} :
    ∀ m : List (String × β), noMarkerKeys m = true → lookupKey sigKey m = none := by
  intro m
  induction m with
  | nil => intro _; rfl
  | cons kv rest ih =>
      intro h
      obtain ⟨k, v⟩ := kv
      simp only [noMarkerKeys, Bool.and_eq_true, Bool.not_eq_eq_eq_not, Bool.not_true,
        decide_eq_false_iff_not] at h
      simp only [lookupKey, if_neg h.1]
      exact ih h.2

mutual

/-- Serializing then deserializing a round-trip-safe property value is the
identity. -/
theorem roundTripValue : ∀ v : PropertyValue, rtValue v = true →
    ∃ w, serializePropertyValue v = some w ∧ deserializePropertyValue w = v := by
  intro v hv
  cases v with
  | null =>
      exact ⟨none, by simp [serializePropertyValue], by simp [deserializePropertyValue]⟩
  | bool b =>
      exact ⟨some (.bool b), by simp [serializePropertyValue],
        by simp [deserializePropertyValue]⟩
  | number n =>
      exact ⟨some (.number n), by simp [serializePropertyValue],
        by simp [deserializePropertyValue]⟩
  | string s =>
      exact ⟨some (.string s), by simp [serializePropertyValue],
        by simp [deserializePropertyValue]⟩
  | asset t =>
      refine ⟨some (serializeAssetWire t), by simp [serializePropertyValue], ?_⟩
      simp [deserializePropertyValue, serializeAssetWire, deserializeEntries, sortByKey,
        sortLe, insertLe, keyLe, strLe, charListLe, charLt, lookupKey, sigKey, assetSig,
        archiveSig, textKey, textField]
  | archive t =>
      refine ⟨some (serializeArchiveWire t), by simp [serializePropertyValue], ?_⟩
      simp [deserializePropertyValue, serializeArchiveWire, deserializeEntries, sortByKey,
        sortLe, insertLe, keyLe, strLe, charListLe, charLt, lookupKey, sigKey, assetSig,
        archiveSig, textKey, textField]
  | computed => simp [rtValue] at hv
  | output => simp [rtValue] at hv
  | array es =>
      obtain ⟨ws, hs, hd⟩ := roundTripList es (by simpa [rtValue] using hv)
      exact ⟨some (.array ws), by simp [serializePropertyValue, hs],
        by simp [deserializePropertyValue, hd]⟩
  | object m =>
      simp only [rtValue, Bool.and_eq_true] at hv
      obtain ⟨⟨hsort, hmark⟩, hrt⟩ := hv
      obtain ⟨wm, hs, hd⟩ := roundTripProps m hrt
      refine ⟨some (.object wm), ?_, ?_⟩
      · simp [serializePropertyValue, sortByKey_eq_of_strictSorted m hsort, hs]
      · simp only [deserializePropertyValue, hd, sortByKey_eq_of_strictSorted m hsort,
          lookupKey_none_of_noMarker m hmark]

/-- Elementwise round trip for arrays. -/
theorem roundTripList : ∀ es : List PropertyValue, rtList es = true →
    ∃ ws, serializeArray es = some ws ∧ deserializeList ws = es := by
  intro es hes
  cases es with
  | nil => exact ⟨[], by simp [serializeArray], by simp [deserializeList]⟩
  | cons v rest =>
      simp only [rtList, Bool.and_eq_true] at hes
      obtain ⟨w, hsv, hdv⟩ := roundTripValue v hes.1
      obtain ⟨ws, hsr, hdr⟩ := roundTripList rest hes.2
      refine ⟨w :: ws, ?_, ?_⟩
      · simp [serializeArray, hsv, hsr]
      · simp [deserializeList, hdv, hdr]

/-- Entrywise round trip for object entry lists none of whose values is
dropped by serialization. -/
theorem roundTripProps : ∀ m : List (String × PropertyValue), rtProps m = true →
    ∃ wm, serializePropertiesSorted m = some wm ∧ deserializeEntries wm = m := by
  intro m hm
  cases m with
  | nil => exact ⟨[], by simp [serializePropertiesSorted], by simp [deserializeEntries]⟩
  | cons kv rest =>
      obtain ⟨k, v⟩ := kv
      simp only [rtProps, Bool.and_eq_true] at hm
      obtain ⟨⟨hv0, hv1⟩, hrest⟩ := hm
      obtain ⟨w, hsv, hdv⟩ := roundTripValue v hv1
      obtain ⟨wm, hsr, hdr⟩ := roundTripProps rest hrest
      cases w with
      | none =>
          exfalso
          have hvnull : v = .null := by rw [← hdv]; simp [deserializePropertyValue]
          rw [hvnull] at hv0
          simp [isOmitted] at hv0
      | some wv =>
          refine ⟨(k, some wv) :: wm, ?_, ?_⟩
          · simp [serializePropertiesSorted, hsv, hsr]
          · simp [deserializeEntries, hdv, hdr]

end

/-- `resource.State` (the in-memory resource: `resource.NewState`'s fields).
A Go `nil` property map is `none`. -/
structure ResourceState where
  urn : String
  custom : Bool
  delete : Bool
  id : String
  type : String
  inputs : Option PropertyMap
  defaults : Option PropertyMap
  outputs : Option PropertyMap
  children : List String


/-- `stack.Resource`, the serialized resource record.  A field that Go leaves
as a `nil` map (absent) is `none`. -/
structure SerializedResource where
  urn : String
  custom : Bool
  delete : Bool
  id : String
  type : String
  inputs : Option WireMap
  defaults : Option WireMap
  outputs : Option WireMap
  children : List String


/-- The `if p != nil { out = SerializeProperties(p) }` pattern: an absent map
stays absent; serializing a present map may panic (propagated as `none`). -/
def serializeOptProperties : Option PropertyMap → Option (Option WireMap)
  | none => some none
  | some m => (SerializeProperties m).map some

/-- `SerializeResource`: asserts the URN is nonempty (panic modelled as
`none`), serializes Inputs/Defaults/Outputs preserving absence, sorts the
children, and copies URN/Custom/Delete/ID/Type verbatim. -/
def SerializeResource (res : ResourceState) : Option SerializedResource :=
  if res.urn = "" then none
  else do
    let inputs ← serializeOptProperties res.inputs
    let defaults ← serializeOptProperties res.defaults
    let outputs ← serializeOptProperties res.outputs
    let children := sortLe strLe res.children
    some { urn := res.urn, custom := res.custom, delete := res.delete,
           id := res.id, type := res.type, inputs := inputs,
           defaults := defaults, outputs := outputs, children := children }

/-- `DeserializeResource`: rebuilds the property maps via
`DeserializeProperties` (which always yields a present map) and keeps the
children in serialized order. -/
def DeserializeResource (r : SerializedResource) : ResourceState :=
  { urn := r.urn, custom := r.custom, delete := r.delete, id := r.id,
    type := r.type,
    inputs := some (DeserializeProperties r.inputs),
    defaults := some (DeserializeProperties r.defaults),
    outputs := some (DeserializeProperties r.outputs),
    children := r.children }

/-! ## The construct adapter (`sdk/go/pulumi/provider.go`) -/

/-- Is the separator `"::"` at the head of this character list? -/
def sepAt : List Char → Bool
  | ':' :: ':' :: _ => true
  | _ => false

/-- Scan for the index of the last occurrence of `"::"` (helper). -/
def lastIndexSepAux : List Char → Nat → Option Nat → Option Nat
  | [], _, acc => acc
  | c :: rest, i, acc =>
      lastIndexSepAux rest (i + 1) (if sepAt (c :: rest) then some i else acc)

/-- `strings.LastIndex(ref, "::")`: index of the last occurrence of the
separator, `none` when absent (Go returns `-1`).  Indices count characters,
which coincides with Go's byte indices on ASCII references. -/
def lastIndexSep (s : String) : Option Nat :=
  lastIndexSepAux s.data 0 none

/-- Does `"::"` occur anywhere in the string? -/
def hasSepChars : List Char → Bool
  | [] => false
  | c :: rest => sepAt (c :: rest) || hasSepChars rest

/-- Separator-containment test for a provider reference. -/
def hasSep (s : String) : Bool := hasSepChars s.data

/-- Provider-reference parsing in `construct`: split at the LAST `"::"`,
`urn := ref[0:lastSep]`, `id := ref[lastSep+2:]`; `none` when the separator
is absent (the error branch). -/
def parseProviderRef (ref : String) : Option (String × String) :=
  match lastIndexSep ref with
  | none => none
  | some i => some (String.mk (ref.data.take i), String.mk (ref.data.drop (i + 2)))

/-- The `Providers` loop of `construct`: parse every `pkg → ref` entry into a
`(pkg, urn, id)` triple, failing the whole call on the first reference with no
separator (Go returns the error immediately, emitting no response). -/
def constructProviders : List (String × String) → Except String (List (String × String × String))
  | [] => .ok []
  | (pkg, ref) :: rest =>
      match parseProviderRef ref with
      | none => .error ("expected '::' in provider reference " ++ ref)
      | some (urn, id) => do
          let tail ← constructProviders rest
          .ok ((pkg, urn, id) :: tail)

/-- The dedup loop of `construct` (lines 152–158): `i` is the index in the
sorted `deps` slice, `urns` the output built so far.  The Go code reads
`urns[i-1]`; once an element has been skipped, `len(urns) < i` and that read
is out of range — a panic, modelled as `none`. -/
def dedupLoop : List String → Nat → List String → Option (List String)
  | [], _, urns => some urns
  | d :: rest, i, urns =>
      if i > 0 then
        match urns[i - 1]? with
        | none => none
        | some u =>
            if u = d then dedupLoop rest (i + 1) urns
            else dedupLoop rest (i + 1) (urns ++ [d])
      else dedupLoop rest (i + 1) (urns ++ [d])

/-- Per-property URN dedup in `construct`: sort the dependency URNs with
`sort.Slice (<)`, then run the adjacent-duplicate loop. -/
def constructDedupUrns (deps : List String) : Option (List String) :=
  dedupLoop (sortLe strLe deps) 0 []

/-- The `StateDependencies` conversion of `construct`: apply the dedup to
every property's dependency list; a panic in any entry aborts the call
(no response). -/
def rpcPropertyDependencies : List (String × List String) → Option (List (String × List String))
  | [] => some []
  | (k, deps) :: rest => do
      let urns ← constructDedupUrns deps
      let tail ← rpcPropertyDependencies rest
      some ((k, urns) :: tail)

/-- `plugin.MarshalOptions` (the fields `construct` sets). -/
structure MarshalOptions where
  keepSecrets : Bool
  keepUnknowns : Bool
  keepResources : Bool

/-- The fields of `ConstructRequest` that the modelled stages read. -/
structure ConstructRequest where
  dryRun : Bool
  providers : List (String × String)

/-- The options `construct` passes to `plugin.UnmarshalProperties` for the
request inputs: `{KeepSecrets: true, KeepResources: true,
KeepUnknowns: req.GetDryRun()}`. -/
def constructInputMarshalOptions (req : ConstructRequest) : MarshalOptions :=
  { keepSecrets := true, keepResources := true, keepUnknowns := req.dryRun }

/-- The options `construct` passes to `plugin.MarshalProperties` for the
response state: `{KeepSecrets: true, KeepUnknowns: keepUnknowns,
KeepResources: pulumiCtx.keepResources}` with `keepUnknowns := req.GetDryRun()`. -/
def constructResponseMarshalOptions (req : ConstructRequest)
    (ctxKeepResources : Bool) : MarshalOptions :=
  { keepSecrets := true, keepUnknowns := req.dryRun,
    keepResources := ctxKeepResources }

/-- A property value as seen by the external marshaler: either resolved to a
concrete wire value or still unknown. -/
inductive MarshalableValue where
  | resolved (w : WireValue)
  | unknown

/-- The sentinel the wire format uses for an unknown value. -/
def unknownSentinel : String := "04da6b54-80e4-46f7-96ec-b56ff0331ba9"

/-- Modelled from the spec: the external property marshaler
(`plugin.MarshalProperties`, outside the embedded sources) "permit[s] unknown
markers only when dry-run (a resolved-unknown value in a non-dry-run response
is a failure)": an unknown value marshals to the unknown sentinel when
`KeepUnknowns` is set and fails otherwise. -/
def marshalPropertyValue (opts : MarshalOptions) : MarshalableValue → Except String WireValue
  | .resolved w => .ok w
  | .unknown =>
      if opts.keepUnknowns then .ok (.string unknownSentinel)
      else .error "unexpected unknown property value"

/-- Modelled from the spec: the external property unmarshaler
(`plugin.UnmarshalProperties`): it accepts the unknown sentinel exactly when
`KeepUnknowns` is set. -/
def unmarshalPropertyValue (opts : MarshalOptions) : WireValue → Except String MarshalableValue
  | .string s =>
      if s = unknownSentinel then
        if opts.keepUnknowns then .ok .unknown
        else .error "unexpected unknown property value"
      else .ok (.resolved (.string s))
  | w => .ok (.resolved w)

/-! ## The dynamic field binder (`constructInputsSetArgs`) -/

/-- The state of a resolved output value (`newOutput` + `resolve(value,
known=true, secret, nil)` carrying the dependency resources, identified here
by their URNs). -/
structure OutputValue (V : Type) where
  value : V
  known : Bool
  secret : Bool
  deps : List String

/-- A `constructInput`: {value, secret, deps}. -/
structure ConstructInput (V : Type) where
  value : V
  secret : Bool
  deps : List String

/-- One field of the target args struct, as reflection sees it: whether it is
settable, its `pulumi` tag (if any), whether its type implements `Input`, the
`To...Output` method shape if such a method exists (arg count, result count,
and whether the result type implements `Output`), and its current value. -/
structure StructField (V : Type) where
  canSet : Bool
  tag : Option String
  isInput : Bool
  toOutputMethod : Option (Nat × Nat × Bool)
  value : Option (OutputValue V)

/-- The per-field body of the inner loop of `constructInputsSetArgs`: skip the
field unless it is settable, carries the tag `k`, implements `Input`, and its
`To...Output` method (when present) has the right shape; otherwise set it to a
freshly resolved output. -/
def bindField {V : Type} (k : String) (inp : ConstructInput V)
    (f : StructField V) : StructField V :=
  let setF : StructField V :=
    { f with value := some { value := inp.value, known := true,
                             secret := inp.secret, deps := inp.deps } }
  if !f.canSet then f
  else
    match f.tag with
    | none => f
    | some tag =>
        if tag ≠ k then f
        else if !f.isInput then f
        else
          match f.toOutputMethod with
          | some (numIn, numOut, isOutput) =>
              if numIn ≠ 0 ∨ numOut ≠ 1 then f
              else if !isOutput then f
              else setF
          | none => setF

/-- `constructInputsSetArgs`: `none` args model a `nil` pointer (an error);
otherwise every input is bound to every matching field, and unmatched input
names bind nothing. -/
def constructInputsSetArgs {V : Type} (inputs : List (String × ConstructInput V))
    (args : Option (List (StructField V))) : Except String (List (StructField V)) :=
  match args with
  | none => .error "args must not be nil"
  | some fields =>
      .ok (inputs.foldl (fun fs kv => fs.map (bindField kv.1 kv.2)) fields)

/-- Did the call succeed? -/
def isOkE {ε α : Type} : Except ε α → Bool
  | .ok _ => true
  | .error _ => false

/-! ## Helper lemmas -/

theorem SerializeResource_some (r : ResourceState) (s : SerializedResource)
    (h : SerializeResource r = some s) :
    serializeOptProperties r.inputs = some s.inputs ∧
    serializeOptProperties r.defaults = some s.defaults ∧
    serializeOptProperties r.outputs = some s.outputs ∧
    s.urn = r.urn ∧ s.custom = r.custom ∧ s.delete = r.delete ∧ s.id = r.id ∧
    s.type = r.type ∧ s.children = sortLe strLe r.children := by
  by_cases hu : r.urn = ""
  · simp [SerializeResource, hu] at h
  · simp only [SerializeResource, if_neg hu] at h
    cases hi : serializeOptProperties r.inputs with
    | none => rw [hi] at h; simp at h
    | some i =>
        rw [hi] at h
        cases hd : serializeOptProperties r.defaults with
        | none => rw [hd] at h; simp at h
        | some d =>
            rw [hd] at h
            cases ho : serializeOptProperties r.outputs with
            | none => rw [ho] at h; simp at h
            | some o =>
                rw [ho] at h
                have h2 : (⟨r.urn, r.custom, r.delete, r.id, r.type, i, d, o,
                    sortLe strLe r.children⟩ : SerializedResource) = s :=
                  Option.some.inj h
                subst h2
                exact ⟨rfl, rfl, rfl, rfl, rfl, rfl, rfl, rfl, rfl⟩

theorem serializeOptProperties_none_iff (p : Option PropertyMap) (w : Option WireMap)
    (h : serializeOptProperties p = some w) : (w = none ↔ p = none) := by
  cases p with
  | none =>
      simp only [serializeOptProperties, Option.some.injEq] at h
      simp [← h]
  | some m =>
      simp only [serializeOptProperties] at h
      cases hm : SerializeProperties m with
      | none => rw [hm] at h; simp at h
      | some wm => rw [hm] at h; simp at h; simp [← h]

/-- Serialize-then-deserialize is the identity on round-trip-safe top-level
property maps. -/
theorem roundTripTopMap (m : PropertyMap) (h : rtTopMap m = true) :
    ∃ wm, SerializeProperties m = some wm ∧ DeserializeProperties (some wm) = m := by
  simp only [rtTopMap, Bool.and_eq_true] at h
  obtain ⟨hsort, hrt⟩ := h
  obtain ⟨wm, hs, hd⟩ := roundTripProps m hrt
  refine ⟨wm, ?_, ?_⟩
  · rw [SerializeProperties, sortByKey_eq_of_strictSorted m hsort]
    exact hs
  · show sortByKey (deserializeEntries wm) = m
    rw [hd, sortByKey_eq_of_strictSorted m hsort]

/-- The `Option`-level variant over the nil-map pattern of `SerializeResource`. -/
theorem roundTripOptMap (p : Option PropertyMap) (w : Option WireMap) (m : PropertyMap)
    (hp : p = some m) (hrt : rtTopMap m = true)
    (h : serializeOptProperties p = some w) : DeserializeProperties w = m := by
  subst hp
  obtain ⟨wm, hs, hd⟩ := roundTripTopMap m hrt
  simp only [serializeOptProperties, hs, Option.map_some', Option.some.injEq] at h
  rw [← h]
  exact hd

theorem mem_insertLe {α : Type} (le : α → α → Bool) (a x : α) :
    ∀ l : List α, (x ∈ insertLe le a l ↔ x = a ∨ x ∈ l) := by
  intro l
  induction l with
  | nil => simp [insertLe]
  | cons b rest ih =>
      simp only [insertLe]
      by_cases h : le a b = true
      · simp [h]
      · simp only [if_neg h, List.mem_cons, ih]
        tauto

theorem mem_sortLe {α : Type} (le : α → α → Bool) (x : α) :
    ∀ l : List α, (x ∈ sortLe le l ↔ x ∈ l) := by
  intro l
  induction l with
  | nil => simp [sortLe]
  | cons a rest ih =>
      show x ∈ insertLe le a (sortLe le rest) ↔ _
      rw [mem_insertLe, ih]
      simp

/-- Entries kept by object serialization are exactly the entries whose values
serialize to a materialized (non-nil) wire value. -/
theorem mem_serializePropertiesSorted :
    ∀ (m : List (String × PropertyValue)) (out : WireMap),
      serializePropertiesSorted m = some out →
      ∀ (k : String) (w : WireValue),
        ((k, some w) ∈ out ↔ ∃ v, (k, v) ∈ m ∧ serializePropertyValue v = some (some w)) := by
  intro m
  induction m with
  | nil =>
      intro out h k w
      simp only [serializePropertiesSorted, Option.some.injEq] at h
      simp [← h]
  | cons kv rest ih =>
      intro out h k w
      obtain ⟨k', v'⟩ := kv
      simp only [serializePropertiesSorted] at h
      cases hv : serializePropertyValue v' with
      | none => rw [hv] at h; simp at h
      | some w' =>
          rw [hv] at h
          cases hr : serializePropertiesSorted rest with
          | none => rw [hr] at h; simp at h
          | some out' =>
              rw [hr] at h
              cases w' with
              | none =>
                  simp at h
                  subst h
                  rw [ih out' hr k w]
                  constructor
                  · rintro ⟨v, hv1, hv2⟩
                    exact ⟨v, List.mem_cons_of_mem _ hv1, hv2⟩
                  · rintro ⟨v, hv1, hv2⟩
                    rcases List.mem_cons.mp hv1 with heq | hmem
                    · injection heq with hk hveq
                      rw [hveq] at hv2
                      rw [hv2] at hv
                      simp at hv
                    · exact ⟨v, hmem, hv2⟩
              | some wv =>
                  simp at h
                  subst h
                  simp only [List.mem_cons, Prod.mk.injEq, Option.some.injEq]
                  rw [ih out' hr k w]
                  constructor
                  · rintro (⟨hk, hw⟩ | ⟨v, hv1, hv2⟩)
                    · exact ⟨v', Or.inl (by simp [hk]), by rw [hv, hw]⟩
                    · exact ⟨v, Or.inr hv1, hv2⟩
                  · rintro ⟨v, hv1, hv2⟩
                    rcases hv1 with ⟨hk, hveq⟩ | hmem
                    · rw [hveq] at hv2
                      rw [hv2] at hv
                      injection hv with hv3
                      injection hv3 with hv4
                      exact Or.inl ⟨hk, hv4⟩
                    · exact Or.inr ⟨v, hmem, hv2⟩

/-- Object serialization never stores a `nil` value: dropped keys are dropped
entirely. -/
theorem serializePropertiesSorted_no_none :
    ∀ (m : List (String × PropertyValue)) (out : WireMap),
      serializePropertiesSorted m = some out →
      ∀ (k : String) (wv : Option WireValue), (k, wv) ∈ out → wv ≠ none := by
  intro m
  induction m with
  | nil =>
      intro out h k wv hmem
      simp only [serializePropertiesSorted, Option.some.injEq] at h
      rw [← h] at hmem
      simp at hmem
  | cons kv rest ih =>
      intro out h k wv hmem
      obtain ⟨k', v'⟩ := kv
      simp only [serializePropertiesSorted] at h
      cases hv : serializePropertyValue v' with
      | none => rw [hv] at h; simp at h
      | some w' =>
          rw [hv] at h
          cases hr : serializePropertiesSorted rest with
          | none => rw [hr] at h; simp at h
          | some out' =>
              rw [hr] at h
              cases w' with
              | none =>
                  simp at h
                  subst h
                  exact ih out' hr k wv hmem
              | some wv' =>
                  simp at h
                  subst h
                  rcases List.mem_cons.mp hmem with heq | hmem'
                  · injection heq with h1 h2
                    rw [h2]
                    simp
                  · exact ih out' hr k wv hmem'

/-- Positional description of array serialization: slot `i` of the output is
exactly the serialization of slot `i` of the input (so length and positions,
including explicit null slots, are preserved). -/
theorem serializeArray_getElem :
    ∀ (es : List PropertyValue) (ws : List (Option WireValue)),
      serializeArray es = some ws →
      ∀ i : Nat, ws[i]? = es[i]?.bind serializePropertyValue := by
  intro es
  induction es with
  | nil =>
      intro ws h i
      simp only [serializeArray, Option.some.injEq] at h
      simp [← h]
  | cons v rest ih =>
      intro ws h i
      simp only [serializeArray] at h
      cases hv : serializePropertyValue v with
      | none => rw [hv] at h; simp at h
      | some w =>
          rw [hv] at h
          cases hr : serializeArray rest with
          | none => rw [hr] at h; simp at h
          | some ws' =>
              rw [hr] at h
              simp at h
              subst h
              cases i with
              | zero => simp [hv]
              | succ n => simp [ih ws' hr n]

theorem serializeArray_length :
    ∀ (es : List PropertyValue) (ws : List (Option WireValue)),
      serializeArray es = some ws → ws.length = es.length := by
  intro es
  induction es with
  | nil =>
      intro ws h
      simp only [serializeArray, Option.some.injEq] at h
      simp [← h]
  | cons v rest ih =>
      intro ws h
      simp only [serializeArray] at h
      cases hv : serializePropertyValue v with
      | none => rw [hv] at h; simp at h
      | some w =>
          rw [hv] at h
          cases hr : serializeArray rest with
          | none => rw [hr] at h; simp at h
          | some ws' =>
              rw [hr] at h
              simp at h
              subst h
              simp [ih ws' hr]

theorem lastIndexSepAux_none :
    ∀ (cs : List Char) (i : Nat), hasSepChars cs = false →
      lastIndexSepAux cs i none = none := by
  intro cs
  induction cs with
  | nil => intro i _; rfl
  | cons c rest ih =>
      intro i h
      simp only [hasSepChars, Bool.or_eq_false_iff] at h
      show lastIndexSepAux rest (i + 1)
        (if sepAt (c :: rest) = true then some i else none) = none
      rw [if_neg (by simp [h.1])]
      exact ih (i + 1) h.2

theorem lastIndexSepAux_keeps_some :
    ∀ (cs : List Char) (i j : Nat), ∃ k, lastIndexSepAux cs i (some j) = some k := by
  intro cs
  induction cs with
  | nil => intro i j; exact ⟨j, rfl⟩
  | cons c rest ih =>
      intro i j
      show ∃ k, lastIndexSepAux rest (i + 1)
        (if sepAt (c :: rest) = true then some i else some j) = some k
      by_cases h : sepAt (c :: rest) = true
      · rw [if_pos h]
        exact ih (i + 1) i
      · rw [if_neg h]
        exact ih (i + 1) j

theorem lastIndexSepAux_some_of_hasSep :
    ∀ (cs : List Char) (i : Nat), hasSepChars cs = true →
      ∃ k, lastIndexSepAux cs i none = some k := by
  intro cs
  induction cs with
  | nil => intro i h; simp [hasSepChars] at h
  | cons c rest ih =>
      intro i h
      show ∃ k, lastIndexSepAux rest (i + 1)
        (if sepAt (c :: rest) = true then some i else none) = some k
      by_cases hs : sepAt (c :: rest) = true
      · rw [if_pos hs]
        exact lastIndexSepAux_keeps_some rest (i + 1) i
      · rw [if_neg hs]
        simp only [hasSepChars, Bool.or_eq_true] at h
        rcases h with h | h
        · exact absurd h hs
        · exact ih (i + 1) h

/-- A reference with no separator fails the whole provider loop, wherever it
sits in the list: no partial result is produced. -/
theorem constructProviders_error_of_noSep :
    ∀ (pre : List (String × String)) (pkg ref : String)
      (post : List (String × String)), hasSep ref = false →
      ∃ msg, constructProviders (pre ++ (pkg, ref) :: post) = .error msg := by
  intro pre
  induction pre with
  | nil =>
      intro pkg ref post h
      have hparse : parseProviderRef ref = none := by
        simp only [parseProviderRef, lastIndexSep]
        rw [lastIndexSepAux_none ref.data 0 h]
      exact ⟨"expected '::' in provider reference " ++ ref,
        by simp [constructProviders, hparse]⟩
  | cons p pre' ih =>
      intro pkg ref post h
      obtain ⟨msg, hmsg⟩ := ih pkg ref post h
      simp only [List.cons_append, constructProviders]
      cases hp : parseProviderRef p.2 with
      | none => exact ⟨"expected '::' in provider reference " ++ p.2, by simp⟩
      | some ui =>
          obtain ⟨u, i⟩ := ui
          refine ⟨msg, ?_⟩
          show (do
            let tail ← constructProviders (pre' ++ (pkg, ref) :: post)
            Except.ok ((p.1, u, i) :: tail)) = Except.error msg
          rw [hmsg]
          rfl

/-! ## Claim theorems -/

/-- C1 (code-bug evidence): on the spec's own example, the property
dependency list `["b","a","a","c"]` does not produce `["a","b","c"]` in the
response.  The dedup loop reads `urns[i-1]` with `i` indexing the sorted
`deps` slice; once a duplicate has been skipped the output slice is shorter
than `i`, the read is out of range, and the call panics (modelled as `none`)
— no response is emitted.  A list whose sort has no duplicates (here
`["b","a"]`) still dedups as intended. -/
theorem c1_dedup_panics_on_spec_example :
    constructDedupUrns ["b", "a", "a", "c"] = none ∧
    rpcPropertyDependencies [("p", ["b", "a", "a", "c"])] = none ∧
    constructDedupUrns ["b", "a"] = some ["a", "b"] := by
  refine ⟨by decide, by decide, by decide⟩

/-- C6: a value still marked `Computed` fails serialization at the
`contract.Assert(!prop.IsComputed())` internal-invariant check (modelled as
`none`); no placeholder or coerced value is ever returned. -/
theorem c6_computed_serialization_fails :
    serializePropertyValue PropertyValue.computed = none := by
  simp [serializePropertyValue]

/-- C10: a provider reference containing at least one `"::"` parses with no
validation of the parts — `"aws::"` yields an empty id and `"::x"` an empty
urn — and the error branch is taken exactly when `"::"` is entirely
absent. -/
theorem c10_parse_no_validation :
    (∀ ref : String, (parseProviderRef ref = none ↔ hasSep ref = false)) ∧
    parseProviderRef "aws::" = some ("aws", "") ∧
    parseProviderRef "::x" = some ("", "x") := by
  refine ⟨?_, by decide, by decide⟩
  intro ref
  constructor
  · intro h
    by_cases hs : hasSep ref = true
    · obtain ⟨k, hk⟩ := lastIndexSepAux_some_of_hasSep ref.data 0 hs
      simp [parseProviderRef, lastIndexSep, hk] at h
    · simpa using hs
  · intro h
    simp [parseProviderRef, lastIndexSep, lastIndexSepAux_none ref.data 0 h]

/-- Witness for C10: a separator-free reference takes the error branch. -/
theorem c10_parse_no_validation_witness :
    parseProviderRef "nosep" = none :=
  (c10_parse_no_validation.1 "nosep").mpr (by decide)

/-- C4 counterexample: the reference `"aws::urn::part::with::colons::pid"`
splits at its last `"::"` into urn `"aws::urn::part::with::colons"` and id
`"pid"`.  No package component is parsed out of the reference string (the
package is the Providers map key), so the parsed URN is not
`"urn::part::with::colons"` as the claim's example states. -/
theorem c4_parse_example_counterexample :
    parseProviderRef "aws::urn::part::with::colons::pid" =
      some ("aws::urn::part::with::colons", "pid") ∧
    ("aws::urn::part::with::colons" : String) ≠ "urn::part::with::colons" :=
  ⟨by decide, by decide⟩

/-- C4 amended: a provider reference is split at its last `"::"` into
`{urn = prefix, id = suffix}` — so `"aws::urn::part::with::colons::pid"`
parses to urn `"aws::urn::part::with::colons"` and id `"pid"`, the package
being the Providers map key, not part of the reference — and a reference with
no `"::"` at all fails the whole construct providers stage with a descriptive
error wherever it sits in the map, so no response is emitted. -/
theorem c4_provider_ref_parsing :
    parseProviderRef "aws::urn::part::with::colons::pid" =
      some ("aws::urn::part::with::colons", "pid") ∧
    (∀ (pre post : List (String × String)) (pkg ref : String),
      hasSep ref = false →
      parseProviderRef ref = none ∧
      ∃ msg, constructProviders (pre ++ (pkg, ref) :: post) = .error msg) := by
  refine ⟨by decide, ?_⟩
  intro pre post pkg ref h
  refine ⟨?_, constructProviders_error_of_noSep pre pkg ref post h⟩
  simp [parseProviderRef, lastIndexSep, lastIndexSepAux_none ref.data 0 h]

/-- Witness for the amended C4 theorem at the separator-free reference
`"nosep"`. -/
theorem c4_provider_ref_parsing_witness :
    hasSep "nosep" = false ∧
    (parseProviderRef "nosep" = none ∧
      ∃ msg, constructProviders [("aws", "nosep")] = .error msg) :=
  ⟨by decide, c4_provider_ref_parsing.2 [] [] "aws" "nosep" (by decide)⟩

/-- C2 counterexample: a resource with absent Inputs/Defaults/Outputs
serializes to a record in which those fields are absent (the claim's first
half holds), but deserializing that record yields a present-but-empty Inputs
map — `DeserializeProperties` always builds a map with `make` — refuting the
claim's deserialization half. -/
theorem c2_deserialize_absent_counterexample :
    (SerializeResource (⟨"u", false, false, "", "t", none, none, none, []⟩ :
        ResourceState)).map
        (fun s => (s.inputs, (DeserializeResource s).inputs)) =
      some (none, some []) ∧
    some ([] : PropertyMap) ≠ (none : Option PropertyMap) := by
  constructor
  · simp [SerializeResource, serializeOptProperties, DeserializeResource,
      DeserializeProperties, sortLe]
  · simp

/-- C2 amended: `SerializeResource` preserves the absent-vs-empty distinction
for Inputs/Defaults/Outputs — the serialized field is absent exactly when the
source map was absent — but `DeserializeResource` does not: a record whose
Inputs field is absent deserializes to a state whose Inputs map is present
but empty. -/
theorem c2_absent_vs_empty (r : ResourceState) (s : SerializedResource)
    (h : SerializeResource r = some s) :
    (s.inputs = none ↔ r.inputs = none) ∧
    (s.defaults = none ↔ r.defaults = none) ∧
    (s.outputs = none ↔ r.outputs = none) ∧
    (∀ sr : SerializedResource, sr.inputs = none →
      (DeserializeResource sr).inputs = some []) := by
  obtain ⟨hi, hd, ho, _⟩ := SerializeResource_some r s h
  refine ⟨serializeOptProperties_none_iff _ _ hi,
    serializeOptProperties_none_iff _ _ hd,
    serializeOptProperties_none_iff _ _ ho, ?_⟩
  intro sr hsr
  simp [DeserializeResource, hsr, DeserializeProperties]

/-- A concrete resource with a present-but-empty Inputs map and absent
Defaults/Outputs (C2 witness data). -/
def rC2 : ResourceState := ⟨"u2", false, false, "", "t", some [], none, none, []⟩

/-- The serialized form of `rC2`. -/
def sC2 : SerializedResource :=
  ⟨"u2", false, false, "", "t", some [], none, none, []⟩

/-- Witness for the amended C2 theorem at `rC2`. -/
theorem c2_absent_vs_empty_witness :
    SerializeResource rC2 = some sC2 ∧
    ((sC2.inputs = none ↔ rC2.inputs = none) ∧
     (sC2.defaults = none ↔ rC2.defaults = none) ∧
     (sC2.outputs = none ↔ rC2.outputs = none) ∧
     (∀ sr : SerializedResource, sr.inputs = none →
       (DeserializeResource sr).inputs = some [])) := by
  have hser : SerializeResource rC2 = some sC2 := by
    simp [rC2, sC2, SerializeResource, serializeOptProperties, SerializeProperties,
      serializePropertiesSorted, sortByKey, sortLe]
  exact ⟨hser, c2_absent_vs_empty rC2 sC2 hser⟩

/-- C9: `SerializeResource` copies URN, Type, Custom, Delete, and ID verbatim
into the serialized record, and fails fast (`contract.Assertf` panic,
modelled as `none`) for every resource whose URN is the empty string. -/
theorem c9_serialize_resource_verbatim (res : ResourceState) :
    (res.urn = "" → SerializeResource res = none) ∧
    (∀ s : SerializedResource, SerializeResource res = some s →
      s.urn = res.urn ∧ s.type = res.type ∧ s.custom = res.custom ∧
      s.delete = res.delete ∧ s.id = res.id) := by
  constructor
  · intro h
    simp [SerializeResource, h]
  · intro s h
    obtain ⟨_, _, _, h4, h5, h6, h7, h8, _⟩ := SerializeResource_some res s h
    exact ⟨h4, h8, h5, h6, h7⟩

/-- A resource with an empty URN (C9 witness data). -/
def rC9bad : ResourceState := ⟨"", false, false, "", "t", none, none, none, []⟩

/-- A well-formed resource (C9 witness data). -/
def rC9 : ResourceState :=
  ⟨"u9", true, true, "id9", "t9", none, none, none, ["b", "a"]⟩

/-- The serialized form of `rC9` (children sorted). -/
def sC9 : SerializedResource :=
  ⟨"u9", true, true, "id9", "t9", none, none, none, ["a", "b"]⟩

/-- Witness for C9: the empty-URN resource fails fast, and a serialized
resource's identity fields equal the source's. -/
theorem c9_serialize_resource_verbatim_witness :
    (rC9bad.urn = "" ∧ SerializeResource rC9bad = none) ∧
    (SerializeResource rC9 = some sC9 ∧
      (sC9.urn = rC9.urn ∧ sC9.type = rC9.type ∧ sC9.custom = rC9.custom ∧
       sC9.delete = rC9.delete ∧ sC9.id = rC9.id)) := by
  have hser : SerializeResource rC9 = some sC9 := by
    simp [rC9, sC9, SerializeResource, serializeOptProperties, sortLe, insertLe,
      strLe, charListLe, charLt]
  exact ⟨⟨rfl, (c9_serialize_resource_verbatim rC9bad).1 rfl⟩,
    ⟨hser, (c9_serialize_resource_verbatim rC9).2 sC9 hser⟩⟩

/-- C5: object serialization drops keys whose values serialize to nil —
`{x: null, y: "v"}` becomes `{y: "v"}` — while array serialization preserves
length and element position, keeping nulls as explicit null slots —
`[1, null, "x"]` becomes a 3-element sequence with null at index 1.  In
general: emitted array slot `i` is exactly the serialization of input slot
`i`; an emitted object entry exists for a key exactly when the map holds a
value under it that serializes to a materialized wire value; and no emitted
object entry is nil. -/
theorem c5_object_drop_array_preserve :
    SerializeProperties [("x", .null), ("y", .string "v")] =
      some [("y", some (.string "v"))] ∧
    serializePropertyValue (.array [.number 1, .null, .string "x"]) =
      some (some (.array [some (.number 1), none, some (.string "x")])) ∧
    (∀ (es : List PropertyValue) (ws : List (Option WireValue)),
      serializeArray es = some ws →
      ws.length = es.length ∧
        ∀ i : Nat, ws[i]? = es[i]?.bind serializePropertyValue) ∧
    (∀ (m : PropertyMap) (out : WireMap), SerializeProperties m = some out →
      (∀ (k : String) (w : WireValue),
        ((k, some w) ∈ out ↔
          ∃ v, (k, v) ∈ m ∧ serializePropertyValue v = some (some w))) ∧
      ∀ (k : String) (wv : Option WireValue), (k, wv) ∈ out → wv ≠ none) := by
  refine ⟨?_, ?_, ?_, ?_⟩
  · simp [SerializeProperties, serializePropertiesSorted, serializePropertyValue,
      sortByKey, sortLe, insertLe, keyLe, strLe, charListLe, charLt]
  · simp [serializePropertyValue, serializeArray]
  · intro es ws h
    exact ⟨serializeArray_length es ws h, serializeArray_getElem es ws h⟩
  · intro m out h
    constructor
    · intro k w
      rw [mem_serializePropertiesSorted (sortByKey m) out h k w]
      constructor
      · rintro ⟨v, hv1, hv2⟩
        exact ⟨v, (mem_sortLe keyLe (k, v) m).mp hv1, hv2⟩
      · rintro ⟨v, hv1, hv2⟩
        exact ⟨v, (mem_sortLe keyLe (k, v) m).mpr hv1, hv2⟩
    · exact serializePropertiesSorted_no_none (sortByKey m) out h

/-- Witness for C5's universally quantified parts at concrete inputs. -/
theorem c5_object_drop_array_preserve_witness :
    (serializeArray [PropertyValue.null] = some [none] ∧
     ([(none : Option WireValue)].length = [PropertyValue.null].length ∧
      ∀ i : Nat, [(none : Option WireValue)][i]? =
        [PropertyValue.null][i]?.bind serializePropertyValue)) ∧
    (SerializeProperties [("x", PropertyValue.null)] = some [] ∧
      ∀ (k : String) (wv : Option WireValue), (k, wv) ∈ ([] : WireMap) →
        wv ≠ none) := by
  have h1 : serializeArray [PropertyValue.null] = some [none] := by
    simp [serializeArray, serializePropertyValue]
  have h2 : SerializeProperties [("x", PropertyValue.null)] = some [] := by
    simp [SerializeProperties, serializePropertiesSorted, serializePropertyValue,
      sortByKey, sortLe, insertLe]
  exact ⟨⟨h1, c5_object_drop_array_preserve.2.2.1 [PropertyValue.null] [none] h1⟩,
    ⟨h2, (c5_object_drop_array_preserve.2.2.2 [("x", PropertyValue.null)] [] h2).2⟩⟩

/-- C7 (marshaler spec-modelled): both the input unmarshal and the response
marshal of `construct` set `KeepUnknowns` to the request's dry-run flag, and
the marshaler accepts an unknown value exactly when that flag is set — so a
resolved-unknown state value is accepted into the response iff `dryRun` is
true, while resolved values are always accepted. -/
theorem c7_dry_run_asymmetry (req : ConstructRequest) (ctxKeepResources : Bool) :
    ((constructInputMarshalOptions req).keepUnknowns = req.dryRun ∧
     (constructResponseMarshalOptions req ctxKeepResources).keepUnknowns =
       req.dryRun) ∧
    (isOkE (marshalPropertyValue (constructResponseMarshalOptions req ctxKeepResources)
        MarshalableValue.unknown) = req.dryRun) ∧
    (isOkE (unmarshalPropertyValue (constructInputMarshalOptions req)
        (.string unknownSentinel)) = req.dryRun) ∧
    (∀ w : WireValue, isOkE (marshalPropertyValue
        (constructResponseMarshalOptions req ctxKeepResources) (.resolved w)) = true) := by
  cases hdr : req.dryRun <;>
    simp [constructInputMarshalOptions, constructResponseMarshalOptions,
      marshalPropertyValue, unmarshalPropertyValue, isOkE, hdr]

/-- C8: binding an input whose name equals the single tagged field's tag
populates only that field, with a freshly constructed output resolved to
`{value, known := true, secret}` carrying the declared dependencies; binding
a name matching no tag changes no field and returns no error. -/
theorem c8_binder_isolation {V : Type} (f1 f2 : StructField V) (t k : String)
    (inp : ConstructInput V)
    (h1 : f1.canSet = true) (h2 : f1.tag = some t) (h3 : f1.isInput = true)
    (h4 : f1.toOutputMethod = none) (h5 : f2.tag = none) (hk : k ≠ t) :
    constructInputsSetArgs [(t, inp)] (some [f1, f2]) =
      .ok [{ f1 with
              value := some ⟨inp.value, true, inp.secret, inp.deps⟩ }, f2] ∧
    constructInputsSetArgs [(k, inp)] (some [f1, f2]) = .ok [f1, f2] := by
  constructor
  · simp [constructInputsSetArgs, bindField, h1, h2, h3, h4, h5]
  · simp [constructInputsSetArgs, bindField, h1, h2, h3, h4, h5, Ne.symm hk]

/-- A tagged, settable, Input-typed field with no To...Output method (C8
witness data). -/
def fC8a : StructField Nat := ⟨true, some "name", true, none, none⟩

/-- An untagged field (C8 witness data). -/
def fC8b : StructField Nat := ⟨true, none, true, none, none⟩

/-- A concrete construct input (C8 witness data). -/
def inpC8 : ConstructInput Nat := ⟨7, true, ["urn:dep"]⟩

/-- Witness for C8 at a concrete two-field target. -/
theorem c8_binder_isolation_witness :
    fC8a.canSet = true ∧ fC8a.tag = some "name" ∧ fC8a.isInput = true ∧
    fC8a.toOutputMethod = none ∧ fC8b.tag = none ∧
    ("other" : String) ≠ "name" ∧
    (constructInputsSetArgs [("name", inpC8)] (some [fC8a, fC8b]) =
        .ok [{ fC8a with
                value := some ⟨inpC8.value, true, inpC8.secret, inpC8.deps⟩ }, fC8b] ∧
     constructInputsSetArgs [("other", inpC8)] (some [fC8a, fC8b]) =
        .ok [fC8a, fC8b]) :=
  ⟨rfl, rfl, rfl, rfl, rfl, by decide,
    c8_binder_isolation fC8a fC8b "name" "other" inpC8 rfl rfl rfl rfl rfl
      (by decide)⟩

/-- C3 counterexample: this resource contains no `Computed` values, yet the
round trip is not the identity — object serialization drops the null-valued
key `x`, so the deserialized Inputs map is empty rather than value-equal to
`{x: null}`. -/
theorem c3_roundtrip_counterexample :
    (SerializeResource (⟨"u3", false, false, "", "t",
        some [("x", PropertyValue.null)], some [], some [], []⟩ :
        ResourceState)).map (fun s => (DeserializeResource s).inputs) =
      some (some []) ∧
    (⟨"u3", false, false, "", "t", some [("x", PropertyValue.null)],
        some [], some [], []⟩ : ResourceState).inputs =
      some [("x", PropertyValue.null)] ∧
    some ([] : PropertyMap) ≠ some [("x", PropertyValue.null)] := by
  refine ⟨?_, rfl, by simp⟩
  simp [SerializeResource, serializeOptProperties, SerializeProperties,
    serializePropertiesSorted, serializePropertyValue, sortByKey, sortLe, insertLe,
    DeserializeResource, DeserializeProperties, deserializeEntries]

/-- C3 amended: deserializing the serialized form of a resource yields
identical URN/Type/Custom/Delete/ID, Children sorted lexicographically, and
identical property maps, provided the resource's Inputs/Defaults/Outputs are
all present, canonical (keys strictly sorted at every level), and round-trip
safe: no `Computed` or unmaterialized-output value anywhere, no null-valued
object entry (object serialization drops those keys), and no nested object
using the asset/archive type-marker key. -/
theorem c3_roundtrip (r : ResourceState) (s : SerializedResource)
    (hser : SerializeResource r = some s)
    (hin : ∃ m, r.inputs = some m ∧ rtTopMap m = true)
    (hdef : ∃ m, r.defaults = some m ∧ rtTopMap m = true)
    (hout : ∃ m, r.outputs = some m ∧ rtTopMap m = true) :
    (DeserializeResource s).urn = r.urn ∧
    (DeserializeResource s).type = r.type ∧
    (DeserializeResource s).custom = r.custom ∧
    (DeserializeResource s).delete = r.delete ∧
    (DeserializeResource s).id = r.id ∧
    (DeserializeResource s).children = sortLe strLe r.children ∧
    (DeserializeResource s).inputs = r.inputs ∧
    (DeserializeResource s).defaults = r.defaults ∧
    (DeserializeResource s).outputs = r.outputs := by
  obtain ⟨hi, hd, ho, hurn, hcustom, hdelete, hid, htype, hchildren⟩ :=
    SerializeResource_some r s hser
  obtain ⟨mi, hmi, hrti⟩ := hin
  obtain ⟨md, hmd, hrtd⟩ := hdef
  obtain ⟨mo, hmo, hrto⟩ := hout
  refine ⟨hurn, htype, hcustom, hdelete, hid, hchildren, ?_, ?_, ?_⟩
  · show some (DeserializeProperties s.inputs) = r.inputs
    rw [roundTripOptMap r.inputs s.inputs mi hmi hrti hi, hmi]
  · show some (DeserializeProperties s.defaults) = r.defaults
    rw [roundTripOptMap r.defaults s.defaults md hmd hrtd hd, hmd]
  · show some (DeserializeProperties s.outputs) = r.outputs
    rw [roundTripOptMap r.outputs s.outputs mo hmo hrto ho, hmo]

/-- A round-trip-safe concrete resource carrying an array with a null slot, a
nested object, and an asset (C3 witness data). -/
def rC3 : ResourceState :=
  ⟨"u4", true, true, "id4", "t4",
   some [("arr", .array [.number 1, .null, .string "s"]),
         ("obj", .object [("a", .bool true)])],
   some [("as", .asset "payload")],
   some [],
   ["b", "a"]⟩

/-- The serialized form of `rC3`. -/
def sC3 : SerializedResource :=
  ⟨"u4", true, true, "id4", "t4",
   some [("arr", some (.array [some (.number 1), none, some (.string "s")])),
         ("obj", some (.object [("a", some (.bool true))]))],
   some [("as", some (.object [("sig", some (.string "asset")),
                               ("text", some (.string "payload"))]))],
   some [],
   ["a", "b"]⟩

/-- Witness for the amended C3 theorem at `rC3`. -/
theorem c3_roundtrip_witness :
    SerializeResource rC3 = some sC3 ∧
    ((DeserializeResource sC3).urn = rC3.urn ∧
     (DeserializeResource sC3).type = rC3.type ∧
     (DeserializeResource sC3).custom = rC3.custom ∧
     (DeserializeResource sC3).delete = rC3.delete ∧
     (DeserializeResource sC3).id = rC3.id ∧
     (DeserializeResource sC3).children = sortLe strLe rC3.children ∧
     (DeserializeResource sC3).inputs = rC3.inputs ∧
     (DeserializeResource sC3).defaults = rC3.defaults ∧
     (DeserializeResource sC3).outputs = rC3.outputs) := by
  have hser : SerializeResource rC3 = some sC3 := by
    simp [rC3, sC3, SerializeResource, serializeOptProperties, SerializeProperties,
      serializePropertiesSorted, serializePropertyValue, serializeArray, sortByKey,
      sortLe, insertLe, keyLe, strLe, charListLe, charLt, serializeAssetWire,
      sigKey, assetSig, textKey]
  refine ⟨hser, c3_roundtrip rC3 sC3 hser ⟨_, rfl, ?_⟩ ⟨_, rfl, ?_⟩ ⟨_, rfl, ?_⟩⟩
  · simp [rtTopMap, strictSortedKeys, noMarkerKeys, rtProps, rtValue, rtList,
      isOmitted, strLt, charListLt, charLt, sigKey]
  · simp [rtTopMap, strictSortedKeys, noMarkerKeys, rtProps, rtValue, rtList,
      isOmitted, strLt, charListLt, charLt, sigKey]
  · simp [rtTopMap, strictSortedKeys, rtProps]

end Pulumi
